import Mathlib

/-!
Shallow embedding of the ragrank evaluation core:
`src/ragrank/evaluation/base.py` (the `evaluate` orchestrator) and
`src/ragrank/evaluation/outputs.py` (the `EvalResult` value object with its
pydantic validation, `to_dataframe` and `__repr__`/`__str__` renderings).

Python floats are modelled as `Rat`; the collaborators that live outside the
provided sources (`ragrank.dataset`, `ragrank.metric`, `ragrank.llm`) are
modelled from the specification, as marked on every such definition.
-/

/-- A single evaluation record.  Modelled from the spec: one evaluation unit
with fields question (text), context (ordered sequence of text), response
(text) — `ragrank.dataset.DataNode`. -/
structure DataNode where
  question : String
  context : List String
  response : String
deriving DecidableEq

/-- Modelled from the spec: a Dataset is an ordered sequence of Records —
`ragrank.dataset.Dataset`. -/
structure Dataset where
  records : List DataNode
deriving DecidableEq

/-- Modelled from the spec: iteration with progress reporting is a
pass-through that "must not alter iteration order or values", so
`with_progress` yields exactly the records in order. -/
def Dataset.with_progress (d : Dataset) (_label : String) : List DataNode :=
  d.records

/-- Modelled from the spec: a raw mapping with `question`, `context`,
`response` keys (a well-formed input dict). -/
structure RawMapping where
  question : String
  context : List String
  response : String
deriving DecidableEq

/-- Modelled from the spec: `from_dict` converts a raw mapping to a single
Record (`DataNode`). -/
def from_dict (d : RawMapping) : DataNode :=
  ⟨d.question, d.context, d.response⟩

/-- Modelled from the spec: a single Record is wrapped into a one-record
Dataset — `DataNode.to_dataset`. -/
def DataNode.to_dataset (n : DataNode) : Dataset :=
  ⟨[n]⟩

/-- Modelled from the spec: the result of one scoring call, exposing a
numeric `score` field — `ragrank.metric.MetricResult`. -/
structure ScoreResult where
  score : Rat

/-- Modelled from the spec: a metric is a named capability
`score(record) -> ScoreResult` — `ragrank.metric.BaseMetric`. -/
structure BaseMetric where
  name : String
  score : DataNode → ScoreResult

/-- Modelled from the spec: the language-model client, retained for
provenance and never reinspected by this core — `ragrank.llm.BaseLLM`. -/
structure BaseLLM where
  name : String
deriving DecidableEq

/-- Modelled from the spec: the process-wide default language-model client
obtained when `llm` is absent — `ragrank.llm.default_llm`. -/
def default_llm : BaseLLM :=
  ⟨"default"⟩

/-- Modelled from the spec: the built-in default metric used when `metrics`
is absent — `ragrank.metric.response_relevancy`. -/
def response_relevancy : BaseMetric :=
  ⟨"response relevancy", fun _ => ⟨0⟩⟩

/-- A pydantic `ValidationError`: either a field-level failure (such as the
`Field(gt=0)` check on `response_time`) or a `ValueError` raised inside the
`model_validator` and wrapped by pydantic. -/
inductive ValidationError where
  | fieldError (loc msg : String)
  | valueError (msg : String)
deriving DecidableEq

/-- pydantic's message for a violated `Field(gt=0)` constraint. -/
def gtZeroMsg : String :=
  "Input should be greater than 0"

/-- The exact message of the first `ValueError` in `EvalResult.validator`
(`outputs.py` lines 50-54). -/
def metricCountMsg : String :=
  "The number of metrics and number of scores is not equal. \nEnsure that each metric has a corresponding score."

/-- The exact message of the second `ValueError` in `EvalResult.validator`
(`outputs.py` lines 58-62). -/
def scoreCountMsg : String :=
  "The number of datapoints and scores are not balanced. \nEnsure that each score list has the same length as dataset."

/-- The `EvalResult` value object of `outputs.py`, with the same fields in
the same order. -/
structure EvalResult where
  llm : BaseLLM
  metrics : List BaseMetric
  dataset : Dataset
  scores : List (List Rat)
  response_time : Rat

/-- Construction of an `EvalResult` as pydantic performs it: first the field
constraint `response_time : float = Field(gt=0)`, then the
`model_validator(mode="after")` named `validator` (`outputs.py` lines 40-64):
it raises if `len(metrics) != len(scores)`, then raises if any score list's
length differs from `len(dataset)`; otherwise the object is returned
unchanged. -/
def EvalResult.build (llm : BaseLLM) (metrics : List BaseMetric)
    (dataset : Dataset) (response_time : Rat) (scores : List (List Rat)) :
    Except ValidationError EvalResult :=
  if ¬ response_time > 0 then
    .error (.fieldError "response_time" gtZeroMsg)
  else if metrics.length ≠ scores.length then
    .error (.valueError metricCountMsg)
  else if scores.any (fun score => score.length != dataset.records.length) then
    .error (.valueError scoreCountMsg)
  else
    .ok ⟨llm, metrics, dataset, scores, response_time⟩

/-- The `data` argument of `evaluate`: `Dataset | DataNode | dict`. -/
inductive DataArg where
  | raw (d : RawMapping)
  | node (n : DataNode)
  | ds (d : Dataset)

/-- The `metrics` argument of `evaluate`:
`BaseMetric | List[BaseMetric] | None`. -/
inductive MetricsArg where
  | neither
  | one (m : BaseMetric)
  | many (ms : List BaseMetric)

/-- The dataset-normalization steps of `evaluate` (`base.py` lines 58-61):
a dict goes through `from_dict` (yielding a `DataNode`), and a `DataNode`
through `to_dataset`. -/
def resolveData : DataArg → Dataset
  | .raw d => (from_dict d).to_dataset
  | .node n => n.to_dataset
  | .ds d => d

/-- The llm-normalization step of `evaluate` (`base.py` lines 62-63). -/
def resolveLLM : Option BaseLLM → BaseLLM
  | Option.none => default_llm
  | Option.some l => l

/-- The metrics-normalization steps of `evaluate` (`base.py` lines 64-67):
`None` becomes `[response_relevancy]` and a lone metric is wrapped into a
one-element list. -/
def resolveMetrics : MetricsArg → List BaseMetric
  | .neither => [response_relevancy]
  | .one m => [m]
  | .many ms => ms

/-- The `evaluate` orchestrator (`base.py` lines 19-88).  The elapsed
wall-clock duration of the scoring loop (`delta = time() - dt`) is a
non-deterministic effect and is passed explicitly.  The scores grid is the
nested comprehension of lines 70-75: for each metric in order, the list of
`metric.score(datanode).score` over the dataset's progress iteration. -/
def evaluate (data : DataArg) (llm : Option BaseLLM) (metrics : MetricsArg)
    (delta : Rat) : Except ValidationError EvalResult :=
  let dataset := resolveData data
  let l := resolveLLM llm
  let ms := resolveMetrics metrics
  let scores := ms.map (fun metric =>
    (dataset.with_progress "Evaluating").map (fun datanode =>
      (metric.score datanode).score))
  EvalResult.build l ms dataset delta scores

/-! ### Concrete instances used by witnesses and counterexamples -/

/-- A concrete record. -/
def dnA : DataNode :=
  ⟨"Who is the 46th US President?", ["Joseph Robinette Biden is the 46th president."], "Joseph Robinette Biden"⟩

/-- A concrete one-record dataset. -/
def oneDs : Dataset :=
  ⟨[dnA]⟩

/-- A concrete language-model client. -/
def llmA : BaseLLM :=
  ⟨"llmA"⟩

/-- A concrete metric. -/
def mA : BaseMetric :=
  ⟨"mA", fun _ => ⟨1/2⟩⟩

/-- A second concrete metric with a different name. -/
def mB : BaseMetric :=
  ⟨"mB", fun _ => ⟨1⟩⟩

/-- A metric whose name collides with the dataset field "question". -/
def qM : BaseMetric :=
  ⟨"question", fun _ => ⟨1⟩⟩

/-- A metric sharing `mA`'s name but producing a different score. -/
def mA2 : BaseMetric :=
  ⟨"mA", fun _ => ⟨3/4⟩⟩

/-! ### The tabular and string renderings of `EvalResult` -/

/-- A cell of the tabular form: a text field, a context list, or a numeric
score. -/
inductive Cell where
  | str (s : String)
  | strList (l : List String)
  | num (q : Rat)
deriving DecidableEq

/-- Name-keyed assignment with the Python semantics shared by pandas
`df[name] = col` and dict entry assignment: an existing key is overwritten in
place, a new key is appended at the end. -/
def upsert {α : Type} (d : List (String × α)) (k : String) (v : α) :
    List (String × α) :=
  if k ∈ d.map Prod.fst then
    d.map (fun p => if p.1 = k then (k, v) else p)
  else
    d ++ [(k, v)]

/-- Left fold of `upsert` over a list of entries. -/
def upsertAll {α : Type} (d ps : List (String × α)) : List (String × α) :=
  ps.foldl (fun acc p => upsert acc p.1 p.2) d

/-- First value stored under a key (Python `d[x]` / column access). -/
def lookupKey {α : Type} (x : String) : List (String × α) → Option α
  | [] => Option.none
  | p :: ps => if p.1 = x then Option.some p.2 else lookupKey x ps

/-- The keys of a name-keyed collection, in order. -/
def keysOf {α : Type} (d : List (String × α)) : List String :=
  d.map Prod.fst

/-- Modelled from the spec: the dataset's tabular form has one row per
record and one column per field — `ragrank.dataset.Dataset.to_dataframe`. -/
def Dataset.to_dataframe (d : Dataset) : List (String × List Cell) :=
  [("question", d.records.map (fun r => Cell.str r.question)),
   ("context", d.records.map (fun r => Cell.strList r.context)),
   ("response", d.records.map (fun r => Cell.str r.response))]

/-- Out-of-range placeholder for the index-based loops of `outputs.py`
(Python indexing never actually reaches it). -/
def dummyMetric : BaseMetric :=
  ⟨"", fun _ => ⟨0⟩⟩

/-- `EvalResult.to_dataframe` (`outputs.py` lines 66-76): starts from the
dataset's tabular form and assigns `df[self.metrics[i].name] = self.scores[i]`
for `i in range(len(self.metrics))`. -/
def EvalResult.to_dataframe (r : EvalResult) : List (String × List Cell) :=
  (List.range r.metrics.length).foldl
    (fun df i =>
      upsert df ((r.metrics.getD i dummyMetric).name)
        ((r.scores.getD i []).map Cell.num))
    r.dataset.to_dataframe

/-- The data displayed by `EvalResult.__repr__` (`outputs.py` lines 78-92):
for each record index `i`, the dict
`{self.metrics[k].name: self.scores[k][i] for k in range(len(self.metrics))}`,
built by Python dict insertion. -/
def EvalResult.reprData (r : EvalResult) : List (List (String × Rat)) :=
  (List.range r.dataset.records.length).map (fun i =>
    (List.range r.metrics.length).foldl
      (fun d k =>
        upsert d ((r.metrics.getD k dummyMetric).name)
          ((r.scores.getD k []).getD i 0))
      [])

/-- The data displayed by `EvalResult.__str__` (`outputs.py` lines 94-101):
it returns `self.__repr__()`. -/
def EvalResult.strData (r : EvalResult) : List (List (String × Rat)) :=
  r.reprData

/-! ### Generic lemmas about name-keyed assignment -/

lemma foldl_range_upsert {α : Type} (n : Nat) (key : Nat → String)
    (val : Nat → α) (d : List (String × α)) :
    (List.range n).foldl (fun acc k => upsert acc (key k) (val k)) d
      = upsertAll d ((List.range n).map (fun k => (key k, val k))) := by
  unfold upsertAll
  rw [List.foldl_map]

lemma map_range_apply_getD {α β : Type} (l : List α) (d : α) (f : α → β) :
    (List.range l.length).map (fun i => f (l.getD i d)) = l.map f := by
  apply List.ext_getElem
  · simp
  · intro i h1 h2
    simp only [List.getElem_map, List.getElem_range]
    rw [List.getD_eq_getElem _ _ (by simpa using h2)]

lemma keysOf_upsert {α : Type} (d : List (String × α)) (k : String) (v : α) :
    keysOf (upsert d k v) = if k ∈ keysOf d then keysOf d else keysOf d ++ [k] := by
  unfold upsert keysOf
  split
  next h =>
    rw [List.map_map]
    refine List.map_congr_left (fun p hp => ?_)
    dsimp only [Function.comp]
    split
    next hpk => exact hpk.symm
    · rfl
  next h =>
    simp

lemma upsert_snd {α : Type} (P : α → Prop) (d : List (String × α))
    (k : String) (v : α) (hd : ∀ p ∈ d, P p.2) (hv : P v) :
    ∀ p ∈ upsert d k v, P p.2 := by
  intro p hp
  unfold upsert at hp
  split at hp
  · simp only [List.mem_map] at hp
    obtain ⟨q, hq, rfl⟩ := hp
    by_cases hqk : q.1 = k <;> simp only [hqk, if_true, if_false, ite_true, ite_false]
    · exact hv
    · exact hd q hq
  · rcases List.mem_append.mp hp with h | h
    · exact hd p h
    · simp only [List.mem_singleton] at h
      subst h
      exact hv

lemma upsertAll_snd {α : Type} (P : α → Prop) (ps d : List (String × α))
    (hd : ∀ p ∈ d, P p.2) (hps : ∀ p ∈ ps, P p.2) :
    ∀ p ∈ upsertAll d ps, P p.2 := by
  induction ps generalizing d with
  | nil => exact hd
  | cons p ps ih =>
    refine ih (upsert d p.1 p.2) ?_ (fun q hq => hps q (List.mem_cons_of_mem _ hq))
    exact upsert_snd P d p.1 p.2 hd (hps p (List.mem_cons_self _ _))

lemma lookupKey_append {α : Type} (x : String) (d e : List (String × α)) :
    lookupKey x (d ++ e) = match lookupKey x d with
      | Option.some v => Option.some v
      | Option.none => lookupKey x e := by
  induction d with
  | nil => simp [lookupKey]
  | cons p ps ih =>
    by_cases hpx : p.1 = x <;> simp [lookupKey, hpx, ih]

lemma lookupKey_eq_none {α : Type} (x : String) (d : List (String × α))
    (hx : x ∉ keysOf d) : lookupKey x d = Option.none := by
  induction d with
  | nil => rfl
  | cons p ps ih =>
    simp only [keysOf, List.map_cons, List.mem_cons] at hx
    push_neg at hx
    show (if p.1 = x then Option.some p.2 else lookupKey x ps) = Option.none
    rw [if_neg (fun h => hx.1 h.symm)]
    exact ih hx.2

lemma lookupKey_isSome {α : Type} (k : String) (d : List (String × α))
    (hk : k ∈ keysOf d) : ∃ v, lookupKey k d = Option.some v := by
  induction d with
  | nil => simp [keysOf] at hk
  | cons p ps ih =>
    by_cases hpk : p.1 = k
    · exact ⟨p.2, by simp [lookupKey, hpk]⟩
    · simp only [keysOf, List.map_cons, List.mem_cons] at hk
      rcases hk with h | h
      · exact absurd h.symm hpk
      · obtain ⟨v, hv⟩ := ih h
        exact ⟨v, by simp [lookupKey, hpk, hv]⟩

lemma lookupKey_replace {α : Type} (d : List (String × α)) (k x : String)
    (v : α) :
    lookupKey x (d.map (fun p => if p.1 = k then (k, v) else p)) =
      if x = k then
        (match lookupKey x d with
          | Option.some _ => Option.some v
          | Option.none => Option.none)
      else lookupKey x d := by
  induction d with
  | nil => by_cases hxk : x = k <;> simp [lookupKey, hxk]
  | cons p ps ih =>
    by_cases hpk : p.1 = k
    · by_cases hxk : x = k
      · subst hxk
        simp [lookupKey, hpk, ih]
      · have hpx : ¬ p.1 = x := fun hh => hxk (hh.symm.trans hpk)
        have hkx : ¬ k = x := fun hh => hxk hh.symm
        rw [if_neg hxk, List.map_cons, if_pos hpk]
        show (if k = x then Option.some v
          else lookupKey x (ps.map (fun p => if p.1 = k then (k, v) else p))) = _
        rw [if_neg hkx, ih, if_neg hxk]
        show _ = (if p.1 = x then Option.some p.2 else lookupKey x ps)
        rw [if_neg hpx]
    · simp only [List.map_cons, hpk, if_false, ite_false]
      by_cases hpx : p.1 = x
      · by_cases hxk : x = k
        · exact absurd (hpx.trans hxk) hpk
        · simp [lookupKey, hpx, hxk]
      · simp only [lookupKey, hpx, if_false, ite_false]
        exact ih

lemma lookupKey_upsert {α : Type} (d : List (String × α)) (k x : String)
    (v : α) :
    lookupKey x (upsert d k v) =
      if x = k then Option.some v else lookupKey x d := by
  unfold upsert
  split
  next h =>
    rw [lookupKey_replace]
    by_cases hxk : x = k
    · subst hxk
      obtain ⟨w, hw⟩ := lookupKey_isSome x d h
      simp [hw]
    · simp [hxk]
  next h =>
    rw [lookupKey_append]
    by_cases hxk : x = k
    · subst hxk
      rw [lookupKey_eq_none x d h]
      simp [lookupKey]
    · cases hlk : lookupKey x d with
      | some w => simp only [hlk, if_neg hxk]
      | none =>
        simp only [hlk, if_neg hxk]
        show (if k = x then Option.some v else Option.none) = Option.none
        rw [if_neg (fun hh => hxk hh.symm)]

lemma lookupKey_upsertAll_not_mem {α : Type} (ps d : List (String × α))
    (x : String) (hx : x ∉ keysOf ps) :
    lookupKey x (upsertAll d ps) = lookupKey x d := by
  induction ps generalizing d with
  | nil => rfl
  | cons p ps ih =>
    simp only [keysOf, List.map_cons, List.mem_cons] at hx
    push_neg at hx
    show lookupKey x (upsertAll (upsert d p.1 p.2) ps) = _
    rw [ih _ hx.2, lookupKey_upsert, if_neg hx.1]

lemma lookupKey_upsertAll_last {α : Type} (ps : List (String × α)) :
    ∀ (d : List (String × α)) (i : Nat) (hi : i < ps.length),
    (∀ j (hj : j < ps.length), i < j → (ps.get ⟨j, hj⟩).1 ≠ (ps.get ⟨i, hi⟩).1) →
    lookupKey (ps.get ⟨i, hi⟩).1 (upsertAll d ps) =
      Option.some (ps.get ⟨i, hi⟩).2 := by
  induction ps with
  | nil => intro d i hi _; simp at hi
  | cons p ps ih =>
    intro d i hi hlast
    match i with
    | 0 =>
      have hfresh : p.1 ∉ keysOf ps := by
        intro hmem
        simp only [keysOf] at hmem
        obtain ⟨q, hq, hq1⟩ := List.mem_map.mp hmem
        obtain ⟨⟨j, hj⟩, hget⟩ := List.mem_iff_get.mp hq
        exact hlast (j + 1) (by simpa using hj) (Nat.succ_pos j) (by
          simp only [List.get_cons_succ]
          rw [hget, hq1]
          rfl)
      show lookupKey p.1 (upsertAll (upsert d p.1 p.2) ps) = Option.some p.2
      rw [lookupKey_upsertAll_not_mem ps _ _ hfresh, lookupKey_upsert, if_pos rfl]
    | Nat.succ i0 =>
      show lookupKey ((ps.get ⟨i0, _⟩).1) (upsertAll (upsert d p.1 p.2) ps) = _
      exact ih (upsert d p.1 p.2) i0 (Nat.lt_of_succ_lt_succ hi)
        (fun j hj hij => hlast (j + 1) (by simpa using hj) (Nat.succ_lt_succ hij))

lemma keysOf_upsertAll_nodup {α : Type} (ps : List (String × α)) :
    ∀ (d : List (String × α)), (keysOf d).Nodup →
    (keysOf (upsertAll d ps)).Nodup ∧
    (keysOf (upsertAll d ps)).toFinset =
      (keysOf d).toFinset ∪ (keysOf ps).toFinset := by
  induction ps with
  | nil => intro d hd; simpa [upsertAll, keysOf] using hd
  | cons p ps ih =>
    intro d hd
    have hstep : keysOf (upsert d p.1 p.2) =
        if p.1 ∈ keysOf d then keysOf d else keysOf d ++ [p.1] :=
      keysOf_upsert d p.1 p.2
    have hnd : (keysOf (upsert d p.1 p.2)).Nodup := by
      rw [hstep]
      split
      · exact hd
      next h => simpa [List.nodup_append] using ⟨hd, h⟩
    have hfin : (keysOf (upsert d p.1 p.2)).toFinset =
        insert p.1 (keysOf d).toFinset := by
      rw [hstep]
      split
      next h => exact (Finset.insert_eq_self.mpr (List.mem_toFinset.mpr h)).symm
      · simp [List.toFinset_append, Finset.union_comm, Finset.insert_eq]
    obtain ⟨h1, h2⟩ := ih (upsert d p.1 p.2) hnd
    refine ⟨h1, ?_⟩
    show (keysOf (upsertAll (upsert d p.1 p.2) ps)).toFinset = _
    rw [h2, hfin]
    simp [keysOf, Finset.insert_union]

lemma upsertAll_fresh {α : Type} (ps : List (String × α)) :
    ∀ (d : List (String × α)), (keysOf ps).Nodup →
    (∀ x ∈ keysOf ps, x ∉ keysOf d) →
    upsertAll d ps = d ++ ps := by
  induction ps with
  | nil => intro d _ _; simp [upsertAll]
  | cons p ps ih =>
    intro d hnd hdisj
    have hnd1 : (p.1 :: List.map Prod.fst ps).Nodup := hnd
    have hnd2 : (keysOf ps).Nodup := (List.nodup_cons.mp hnd1).2
    have hp1ps : p.1 ∉ List.map Prod.fst ps := (List.nodup_cons.mp hnd1).1
    have hp1 : p.1 ∉ keysOf d :=
      hdisj p.1 (by simp [keysOf])
    have hup : upsert d p.1 p.2 = d ++ [(p.1, p.2)] := by
      unfold upsert
      rw [if_neg (show p.1 ∉ List.map Prod.fst d from hp1)]
    show upsertAll (upsert d p.1 p.2) ps = _
    rw [hup, ih (d ++ [(p.1, p.2)]) hnd2 ?_]
    · simp
    · intro x hx
      simp only [keysOf, List.map_append, List.map_cons, List.map_nil]
      intro hmem
      rcases List.mem_append.mp hmem with h | h
      · exact hdisj x (List.mem_cons_of_mem _ hx) h
      · simp only [List.mem_singleton] at h
        subst h
        exact hp1ps hx

lemma build_ok_inv (llm : BaseLLM) (ms : List BaseMetric) (ds : Dataset)
    (rt : Rat) (ss : List (List Rat)) (r : EvalResult)
    (h : EvalResult.build llm ms ds rt ss = .ok r) :
    r = ⟨llm, ms, ds, ss, rt⟩ ∧ ms.length = ss.length ∧
      ∀ s ∈ ss, s.length = ds.records.length := by
  unfold EvalResult.build at h
  split at h
  · exact absurd h (by simp)
  split at h
  · exact absurd h (by simp)
  split at h
  · exact absurd h (by simp)
  next h1 h2 =>
    cases h
    refine ⟨rfl, by simpa using h1, fun s hs => ?_⟩
    simp only [List.any_eq_true, bne_iff_ne, ne_eq, not_exists, not_and,
      not_not] at h2
    exact h2 s hs

lemma get_range_map {α : Type} (n : Nat) (g : Nat → α) (i : Nat)
    (hi : i < ((List.range n).map g).length) :
    ((List.range n).map g).get ⟨i, hi⟩ = g i := by
  simp [List.get_eq_getElem, List.getElem_map, List.getElem_range]

lemma keysOf_range_pairs {α : Type} (ms : List BaseMetric) (val : Nat → α) :
    keysOf ((List.range ms.length).map (fun k =>
      ((ms.getD k dummyMetric).name, val k))) = ms.map (fun m => m.name) := by
  show List.map Prod.fst _ = _
  rw [List.map_map]
  exact map_range_apply_getD ms dummyMetric (fun m => m.name)

lemma reprData_getD (llm : BaseLLM) (ms : List BaseMetric) (ds : Dataset)
    (rt : Rat) (ss : List (List Rat)) (j : Nat) (hj : j < ds.records.length) :
    (EvalResult.reprData ⟨llm, ms, ds, ss, rt⟩).getD j [] =
      upsertAll [] ((List.range ms.length).map (fun k =>
        ((ms.getD k dummyMetric).name, (ss.getD k []).getD j 0))) := by
  unfold EvalResult.reprData
  rw [List.getD_eq_getElem _ _ (by simpa using hj), List.getElem_map,
    List.getElem_range]
  exact foldl_range_upsert ms.length _ _ []

lemma to_dataframe_eq_upsertAll (llm : BaseLLM) (ms : List BaseMetric)
    (ds : Dataset) (rt : Rat) (ss : List (List Rat)) :
    EvalResult.to_dataframe ⟨llm, ms, ds, ss, rt⟩ =
      upsertAll ds.to_dataframe ((List.range ms.length).map (fun i =>
        ((ms.getD i dummyMetric).name, (ss.getD i []).map Cell.num))) := by
  unfold EvalResult.to_dataframe
  exact foldl_range_upsert ms.length _ _ _

/-! ### The claims -/

/-- C1: every constructed EvalResult satisfies len(metrics) = len(scores) and each score row has the dataset's length, with the stored lists exactly the ones supplied (never truncated or padded); any construction violating either count equation fails with a ValidationError. -/
theorem build_count_invariant (llm : BaseLLM) (ms : List BaseMetric)
    (ds : Dataset) (rt : Rat) (ss : List (List Rat)) :
    (∀ r, EvalResult.build llm ms ds rt ss = .ok r →
      r.metrics.length = r.scores.length ∧
      (∀ s ∈ r.scores, s.length = r.dataset.records.length) ∧
      r.metrics = ms ∧ r.scores = ss ∧ r.dataset = ds) ∧
    (ms.length ≠ ss.length ∨ (∃ s ∈ ss, s.length ≠ ds.records.length) →
      ∃ e, EvalResult.build llm ms ds rt ss = .error e) := by
  constructor
  · intro r hr
    unfold EvalResult.build at hr
    split at hr
    · exact absurd hr (by simp)
    split at hr
    · exact absurd hr (by simp)
    split at hr
    · exact absurd hr (by simp)
    next hlen hbal =>
      cases hr
      refine ⟨by simpa using hlen, ?_, rfl, rfl, rfl⟩
      intro s hs
      simp only [List.any_eq_true, bne_iff_ne, ne_eq, not_exists, not_and,
        not_not] at hbal
      exact hbal s hs
  · intro h
    unfold EvalResult.build
    split
    · exact ⟨_, rfl⟩
    split
    · exact ⟨_, rfl⟩
    split
    · exact ⟨_, rfl⟩
    next hlen hbal =>
      exfalso
      rcases h with h | ⟨s, hs, hne⟩
      · exact hlen (by simpa using h)
      · simp only [List.any_eq_true, bne_iff_ne, ne_eq, not_exists, not_and,
          not_not] at hbal
        exact hne (hbal s hs)

/-- C1 witness: a construction with 2 metrics and 1 score list fails. -/
theorem build_count_invariant_witness :
    ∃ e, EvalResult.build llmA [mA, mB] oneDs 1 [[1/2]] = .error e :=
  (build_count_invariant llmA [mA, mB] oneDs 1 [[1/2]]).2 (Or.inl (by decide))

/-- C2: for any data, llm and metrics arguments and positive elapsed time, evaluate succeeds and its scores grid has scores[i][j] equal to the score that the i-th normalized metric assigns to the j-th record of the resolved dataset: metric order and record order are both preserved. -/
theorem evaluate_scores_ordering (data : DataArg) (llm : Option BaseLLM)
    (metrics : MetricsArg) (delta : Rat) (hd : 0 < delta) :
    ∃ r, evaluate data llm metrics delta = .ok r ∧
      r.metrics = resolveMetrics metrics ∧
      r.dataset = resolveData data ∧
      r.scores.length = (resolveMetrics metrics).length ∧
      (∀ s ∈ r.scores, s.length = (resolveData data).records.length) ∧
      (∀ i j (hi : i < (resolveMetrics metrics).length)
        (hj : j < (resolveData data).records.length),
        (r.scores.getD i []).getD j 0 =
          (((resolveMetrics metrics).get ⟨i, hi⟩).score
            ((resolveData data).records.get ⟨j, hj⟩)).score) := by
  refine ⟨⟨resolveLLM llm, resolveMetrics metrics, resolveData data,
    (resolveMetrics metrics).map (fun metric =>
      ((resolveData data).with_progress "Evaluating").map (fun datanode =>
        (metric.score datanode).score)), delta⟩, ?_, rfl, rfl, ?_, ?_, ?_⟩
  · show EvalResult.build _ _ _ _ _ = _
    unfold EvalResult.build
    rw [if_neg (by simpa using hd), if_neg (by simp), if_neg (by
      simp [Dataset.with_progress, List.any_eq_true, List.mem_map])]
  · simp
  · intro s hs
    simp only [List.mem_map] at hs
    obtain ⟨m, _, rfl⟩ := hs
    simp [Dataset.with_progress]
  · intro i j hi hj
    show (((resolveMetrics metrics).map (fun metric =>
      ((resolveData data).with_progress "Evaluating").map (fun datanode =>
        (metric.score datanode).score))).getD i []).getD j 0 = _
    have h1 : ((resolveMetrics metrics).map (fun metric =>
        ((resolveData data).with_progress "Evaluating").map (fun datanode =>
          (metric.score datanode).score))).getD i []
        = ((resolveData data).with_progress "Evaluating").map (fun datanode =>
          (((resolveMetrics metrics).get ⟨i, hi⟩).score datanode).score) := by
      rw [List.getD_eq_getElem _ _ (by simpa using hi), List.getElem_map,
        List.get_eq_getElem]
    rw [h1, List.getD_eq_getElem _ _ (by simpa [Dataset.with_progress] using hj),
      List.getElem_map]
    simp [Dataset.with_progress]

/-- C2 witness: the ordering property instantiated at a concrete one-record evaluation. -/
theorem evaluate_scores_ordering_witness :
    ∃ r, evaluate (.ds oneDs) Option.none (.many [mA]) 1 = .ok r ∧
      r.metrics = resolveMetrics (.many [mA]) ∧
      r.dataset = resolveData (.ds oneDs) ∧
      r.scores.length = (resolveMetrics (.many [mA])).length ∧
      (∀ s ∈ r.scores, s.length = (resolveData (.ds oneDs)).records.length) ∧
      (∀ i j (hi : i < (resolveMetrics (.many [mA])).length)
        (hj : j < (resolveData (.ds oneDs)).records.length),
        (r.scores.getD i []).getD j 0 =
          (((resolveMetrics (.many [mA])).get ⟨i, hi⟩).score
            ((resolveData (.ds oneDs)).records.get ⟨j, hj⟩)).score) :=
  evaluate_scores_ordering (.ds oneDs) Option.none (.many [mA]) 1 (by norm_num)

/-- C3: a construction with response_time ≤ 0 fails with pydantic's greater-than error, and every successfully constructed EvalResult has response_time > 0. -/
theorem build_response_time_positive (llm : BaseLLM) (ms : List BaseMetric)
    (ds : Dataset) (rt : Rat) (ss : List (List Rat)) :
    (rt ≤ 0 →
      EvalResult.build llm ms ds rt ss =
        .error (.fieldError "response_time" gtZeroMsg)) ∧
    (∀ r, EvalResult.build llm ms ds rt ss = .ok r → 0 < r.response_time) := by
  constructor
  · intro h
    unfold EvalResult.build
    rw [if_pos (by simpa using h)]
  · intro r hr
    unfold EvalResult.build at hr
    split at hr
    · exact absurd hr (by simp)
    next hpos =>
      split at hr
      · exact absurd hr (by simp)
      split at hr
      · exact absurd hr (by simp)
      cases hr
      simpa using hpos

/-- C3 witness: construction at response_time = 0 fails. -/
theorem build_response_time_positive_witness :
    EvalResult.build llmA [mA] oneDs 0 [[1/2]] =
      .error (.fieldError "response_time" gtZeroMsg) :=
  (build_response_time_positive llmA [mA] oneDs 0 [[1/2]]).1 (by norm_num)

/-- C4: evaluate applied to a raw mapping equals evaluate applied to from_dict of that mapping, for the same llm, metrics and elapsed time — identical scores grids in particular. -/
theorem evaluate_raw_eq_from_dict (d : RawMapping) (llm : Option BaseLLM)
    (metrics : MetricsArg) (delta : Rat) :
    evaluate (.raw d) llm metrics delta =
      evaluate (.node (from_dict d)) llm metrics delta :=
  rfl

/-- C5: evaluate with a lone metric equals evaluate with the one-element list holding that metric. -/
theorem evaluate_single_metric_shorthand (data : DataArg) (llm : Option BaseLLM)
    (m : BaseMetric) (delta : Rat) :
    evaluate data llm (.one m) delta = evaluate data llm (.many [m]) delta :=
  rfl

/-- C6 counterexample: evaluate with an explicitly empty metric list succeeds, returning an EvalResult with zero metrics and an empty scores grid — the claim that such a call must not succeed is false on the code. -/
theorem evaluate_empty_metrics_succeeds :
    evaluate (.ds oneDs) Option.none (.many []) 1 =
      .ok ⟨default_llm, [], oneDs, [], 1⟩ :=
  rfl

/-- C6 amended: an evaluate call whose metrics normalize to an empty sequence succeeds whenever the elapsed time is positive, returning an EvalResult with zero metrics and an empty scores grid; no non-emptiness constraint is enforced. -/
theorem evaluate_empty_metrics_ok (data : DataArg) (llm : Option BaseLLM)
    (delta : Rat) (hd : 0 < delta) :
    evaluate data llm (.many []) delta =
      .ok ⟨resolveLLM llm, [], resolveData data, [], delta⟩ := by
  show EvalResult.build (resolveLLM llm) [] (resolveData data) delta [] = _
  unfold EvalResult.build
  rw [if_neg (by simpa using hd)]
  simp

/-- C6 amended witness: the empty-metrics evaluation instantiated concretely. -/
theorem evaluate_empty_metrics_ok_witness :
    evaluate (.ds oneDs) Option.none (.many []) 1 =
      .ok ⟨resolveLLM Option.none, [], resolveData (.ds oneDs), [], 1⟩ :=
  evaluate_empty_metrics_ok (.ds oneDs) Option.none 1 (by norm_num)

/-- C7 counterexample: a construction with 2 metrics and 1 score list fails with the metric-count message, but that message names neither offending count: it contains neither the digit 2 nor the digit 1. -/
theorem validation_message_lacks_counts :
    EvalResult.build llmA [mA, mB] oneDs 1 [[1/2]] =
      .error (.valueError metricCountMsg) ∧
    ¬ '2' ∈ metricCountMsg.data ∧ ¬ '1' ∈ metricCountMsg.data :=
  ⟨rfl, by decide, by decide⟩

/-- C7 amended: on an invariant violation the ValidationError identifies which invariant failed — the two failure kinds raise distinct fixed messages — but the messages are constants that do not name the offending counts. -/
theorem build_error_messages (llm : BaseLLM) (ms : List BaseMetric)
    (ds : Dataset) (rt : Rat) (ss : List (List Rat)) (hrt : 0 < rt) :
    (ms.length ≠ ss.length →
      EvalResult.build llm ms ds rt ss = .error (.valueError metricCountMsg)) ∧
    (ms.length = ss.length → (∃ s ∈ ss, s.length ≠ ds.records.length) →
      EvalResult.build llm ms ds rt ss = .error (.valueError scoreCountMsg)) ∧
    metricCountMsg ≠ scoreCountMsg := by
  refine ⟨?_, ?_, by decide⟩
  · intro h
    unfold EvalResult.build
    rw [if_neg (by simpa using hrt), if_pos h]
  · intro hlen ⟨s, hs, hne⟩
    unfold EvalResult.build
    rw [if_neg (by simpa using hrt), if_neg (by simpa using hlen),
      if_pos (by simp only [List.any_eq_true, bne_iff_ne]; exact ⟨s, hs, hne⟩)]

/-- C7 amended witness: the metric-count message raised at a concrete mismatch. -/
theorem build_error_messages_witness :
    EvalResult.build llmA [mA, mB] oneDs 1 [[1/2]] =
      .error (.valueError metricCountMsg) :=
  (build_error_messages llmA [mA, mB] oneDs 1 [[1/2]] (by norm_num)).1 (by decide)

/-- C8 counterexample: for the valid EvalResult whose single metric is named "question", to_dataframe has 3 columns, not 3 original fields plus 1 distinct metric name = 4: the metric's column overwrites the dataset's own "question" column. -/
theorem to_dataframe_field_collision :
    EvalResult.build llmA [qM] oneDs 1 [[1]] =
      .ok ⟨llmA, [qM], oneDs, [[1]], 1⟩ ∧
    (EvalResult.to_dataframe ⟨llmA, [qM], oneDs, [[1]], 1⟩).length = 3 ∧
    ([qM].map (fun m => m.name)).length = 1 ∧
    (3 : Nat) ≠ 3 + 1 :=
  ⟨rfl, rfl, rfl, by decide⟩

/-- C8 amended: for every valid EvalResult, every column of to_dataframe has one slot per dataset record; the column count is the number of distinct names among the original dataset fields and the metric names; columns not named by any metric are the dataset's own; and the column of a metric name holds the scores of the last metric bearing that name, as numeric cells. -/
theorem to_dataframe_shape (llm : BaseLLM) (ms : List BaseMetric)
    (ds : Dataset) (rt : Rat) (ss : List (List Rat)) (r : EvalResult)
    (hok : EvalResult.build llm ms ds rt ss = .ok r) :
    (∀ c ∈ r.to_dataframe, c.2.length = ds.records.length) ∧
    r.to_dataframe.length =
      ((["question", "context", "response"] ++
        ms.map (fun m => m.name)).toFinset).card ∧
    (∀ x, x ∉ ms.map (fun m => m.name) →
      lookupKey x r.to_dataframe = lookupKey x ds.to_dataframe) ∧
    (∀ i (hi : i < ms.length),
      (∀ j (hj : j < ms.length), i < j → ms[j].name ≠ ms[i].name) →
      lookupKey ms[i].name r.to_dataframe =
        Option.some ((ss.getD i []).map Cell.num)) := by
  obtain ⟨rfl, hlen, hrows⟩ := build_ok_inv llm ms ds rt ss r hok
  rw [to_dataframe_eq_upsertAll]
  have hkeys : keysOf ((List.range ms.length).map (fun i =>
      ((ms.getD i dummyMetric).name, (ss.getD i []).map Cell.num))) =
      ms.map (fun m => m.name) := keysOf_range_pairs ms _
  have hpairs_snd : ∀ p ∈ (List.range ms.length).map (fun i =>
      ((ms.getD i dummyMetric).name, (ss.getD i []).map Cell.num)),
      p.2.length = ds.records.length := by
    intro p hp
    simp only [List.mem_map, List.mem_range] at hp
    obtain ⟨i, hi, rfl⟩ := hp
    have hiss : i < ss.length := hlen ▸ hi
    rw [List.getD_eq_getElem _ _ hiss] at *
    simp only [List.length_map]
    exact hrows _ (List.getElem_mem hiss)
  refine ⟨?_, ?_, ?_, ?_⟩
  · refine upsertAll_snd (fun col : List Cell => col.length = ds.records.length) _ _
      ?_ hpairs_snd
    intro p hp
    simp only [Dataset.to_dataframe, List.mem_cons, List.mem_singleton,
      List.not_mem_nil] at hp
    rcases hp with rfl | rfl | rfl | h
    · simp
    · simp
    · simp
    · cases h
  · have hbase : (keysOf ds.to_dataframe).Nodup := by
      show (["question", "context", "response"]).Nodup
      decide
    obtain ⟨hnd, hfin⟩ := keysOf_upsertAll_nodup _ ds.to_dataframe hbase
    have hlen2 : (upsertAll ds.to_dataframe ((List.range ms.length).map
        (fun i => ((ms.getD i dummyMetric).name,
          (ss.getD i []).map Cell.num)))).length =
        (keysOf (upsertAll ds.to_dataframe ((List.range ms.length).map
        (fun i => ((ms.getD i dummyMetric).name,
          (ss.getD i []).map Cell.num))))).length :=
      (List.length_map _ _).symm
    rw [hlen2, ← List.toFinset_card_of_nodup hnd, hfin, hkeys]
    rw [List.toFinset_append]
    rfl
  · intro x hx
    exact lookupKey_upsertAll_not_mem _ _ x (by rw [hkeys]; exact hx)
  · intro i hi hname
    have hip : i < ((List.range ms.length).map (fun i =>
        ((ms.getD i dummyMetric).name,
          (ss.getD i []).map Cell.num))).length := by
      simpa using hi
    have hlast := lookupKey_upsertAll_last _ ds.to_dataframe i hip ?_
    · rw [get_range_map] at hlast
      rw [List.getD_eq_getElem ms dummyMetric hi] at hlast
      simpa using hlast
    · intro j hj hij
      rw [get_range_map, get_range_map]
      have hjm : j < ms.length := by simpa using hj
      simp only [ne_eq]
      rw [List.getD_eq_getElem ms dummyMetric hjm,
        List.getD_eq_getElem ms dummyMetric hi]
      exact hname j hjm hij

/-- C8 amended witness: the table shape instantiated at a concrete one-metric result. -/
theorem to_dataframe_shape_witness :
    (∀ c ∈ (EvalResult.mk llmA [mA] oneDs [[1/2]] 1).to_dataframe,
      c.2.length = oneDs.records.length) ∧
    (EvalResult.mk llmA [mA] oneDs [[1/2]] 1).to_dataframe.length =
      ((["question", "context", "response"] ++
        [mA].map (fun m => m.name)).toFinset).card ∧
    (∀ x, x ∉ [mA].map (fun m => m.name) →
      lookupKey x (EvalResult.mk llmA [mA] oneDs [[1/2]] 1).to_dataframe =
        lookupKey x oneDs.to_dataframe) ∧
    (∀ i (hi : i < [mA].length),
      (∀ j (hj : j < [mA].length), i < j → [mA][j].name ≠ [mA][i].name) →
      lookupKey [mA][i].name (EvalResult.mk llmA [mA] oneDs [[1/2]] 1).to_dataframe =
        Option.some (([[(1 : Rat)/2]].getD i []).map Cell.num)) :=
  to_dataframe_shape llmA [mA] oneDs 1 [[1/2]] _ rfl

/-- C9: for every valid EvalResult with pairwise-distinct metric names, the string rendering shows, for each record index in order, the mapping from each metric's name to that metric's score for the record, and the debug and default textual representations produce identical output. -/
theorem repr_str_rendering (llm : BaseLLM) (ms : List BaseMetric)
    (ds : Dataset) (rt : Rat) (ss : List (List Rat)) (r : EvalResult)
    (hok : EvalResult.build llm ms ds rt ss = .ok r)
    (hnames : (ms.map (fun m => m.name)).Nodup) :
    r.strData = r.reprData ∧
    r.reprData.length = ds.records.length ∧
    (∀ j (hj : j < ds.records.length),
      r.reprData.getD j [] =
        (List.range ms.length).map (fun k =>
          ((ms.getD k dummyMetric).name, (ss.getD k []).getD j 0))) ∧
    (∀ j (hj : j < ds.records.length) (k : Nat) (hk : k < ms.length),
      lookupKey ms[k].name (r.reprData.getD j []) =
        Option.some ((ss.getD k []).getD j 0)) := by
  obtain ⟨rfl, hlen, hrows⟩ := build_ok_inv llm ms ds rt ss r hok
  have hinner : ∀ j, j < ds.records.length →
      (EvalResult.reprData ⟨llm, ms, ds, ss, rt⟩).getD j [] =
        (List.range ms.length).map (fun k =>
          ((ms.getD k dummyMetric).name, (ss.getD k []).getD j 0)) := by
    intro j hj
    rw [reprData_getD llm ms ds rt ss j hj]
    rw [upsertAll_fresh _ [] (by rw [keysOf_range_pairs]; exact hnames)
      (by intro x _ hx; simp [keysOf] at hx)]
    rfl
  refine ⟨rfl, by simp [EvalResult.reprData], hinner, ?_⟩
  intro j hj k hk
  have hkp : k < ((List.range ms.length).map (fun k =>
      ((ms.getD k dummyMetric).name, (ss.getD k []).getD j 0))).length := by
    simpa using hk
  have hlast := lookupKey_upsertAll_last _ ([] : List (String × Rat)) k hkp ?_
  · rw [reprData_getD llm ms ds rt ss j hj]
    rw [get_range_map] at hlast
    rw [List.getD_eq_getElem ms dummyMetric hk] at hlast
    simpa using hlast
  · intro j2 hj2 hkj2
    rw [get_range_map, get_range_map]
    have hj2m : j2 < ms.length := by simpa using hj2
    simp only [ne_eq]
    rw [List.getD_eq_getElem ms dummyMetric hj2m,
      List.getD_eq_getElem ms dummyMetric hk]
    intro heq
    have hinj := (@List.Nodup.getElem_inj_iff _ _ hnames
      j2 (by simpa using hj2m) k (by simpa using hk)).mp
    simp only [List.getElem_map] at hinj
    exact Nat.ne_of_gt hkj2 (hinj heq)

/-- C9 witness: the rendering property instantiated at a concrete two-metric result. -/
theorem repr_str_rendering_witness :
    ((["mA", "mB"] : List String).Nodup) ∧
    ((EvalResult.mk llmA [mA, mB] oneDs [[1/2], [1]] 1).strData =
      (EvalResult.mk llmA [mA, mB] oneDs [[1/2], [1]] 1).reprData ∧
    (EvalResult.mk llmA [mA, mB] oneDs [[1/2], [1]] 1).reprData.length =
      oneDs.records.length ∧
    (∀ j (hj : j < oneDs.records.length),
      (EvalResult.mk llmA [mA, mB] oneDs [[1/2], [1]] 1).reprData.getD j [] =
        (List.range [mA, mB].length).map (fun k =>
          (([mA, mB].getD k dummyMetric).name,
            (([[1/2], [1]] : List (List Rat)).getD k []).getD j 0))) ∧
    (∀ j (hj : j < oneDs.records.length) (k : Nat) (hk : k < [mA, mB].length),
      lookupKey [mA, mB][k].name
          ((EvalResult.mk llmA [mA, mB] oneDs [[1/2], [1]] 1).reprData.getD j []) =
        Option.some ((([[1/2], [1]] : List (List Rat)).getD k []).getD j 0))) :=
  ⟨by decide, repr_str_rendering llmA [mA, mB] oneDs 1 [[1/2], [1]] _ rfl (by
    show (["mA", "mB"] : List String).Nodup
    decide)⟩

/-- C10: in each per-record rendered mapping the keys are the distinct metric names (one entry per distinct name), and looking up a name whose last bearer is metric i yields scores[i][j]: a later metric silently overwrites an earlier one under a shared name. -/
theorem repr_duplicate_names (llm : BaseLLM) (ms : List BaseMetric)
    (ds : Dataset) (rt : Rat) (ss : List (List Rat)) (r : EvalResult)
    (hok : EvalResult.build llm ms ds rt ss = .ok r) :
    ∀ j (hj : j < ds.records.length),
      (keysOf (r.reprData.getD j [])).Nodup ∧
      (keysOf (r.reprData.getD j [])).toFinset =
        (ms.map (fun m => m.name)).toFinset ∧
      (∀ i (hi : i < ms.length),
        (∀ j2 (hj2 : j2 < ms.length), i < j2 → ms[j2].name ≠ ms[i].name) →
        lookupKey ms[i].name (r.reprData.getD j []) =
          Option.some ((ss.getD i []).getD j 0)) := by
  obtain ⟨rfl, hlen, hrows⟩ := build_ok_inv llm ms ds rt ss r hok
  intro j hj
  rw [reprData_getD llm ms ds rt ss j hj]
  obtain ⟨hnd, hfin⟩ := keysOf_upsertAll_nodup ((List.range ms.length).map
    (fun k => ((ms.getD k dummyMetric).name, (ss.getD k []).getD j 0)))
    [] (by simp [keysOf])
  refine ⟨hnd, ?_, ?_⟩
  · rw [hfin, keysOf_range_pairs]
    simp [keysOf]
  · intro i hi hname
    have hip : i < ((List.range ms.length).map (fun k =>
        ((ms.getD k dummyMetric).name, (ss.getD k []).getD j 0))).length := by
      simpa using hi
    have hlast := lookupKey_upsertAll_last _ ([] : List (String × Rat)) i hip ?_
    · rw [get_range_map] at hlast
      rw [List.getD_eq_getElem ms dummyMetric hi] at hlast
      simpa using hlast
    · intro j2 hj2 hij2
      rw [get_range_map, get_range_map]
      have hj2m : j2 < ms.length := by simpa using hj2
      simp only [ne_eq]
      rw [List.getD_eq_getElem ms dummyMetric hj2m,
        List.getD_eq_getElem ms dummyMetric hi]
      exact hname j2 hj2m hij2

/-- C10 witness: the duplicate-name overwrite instantiated with two metrics sharing one name. -/
theorem repr_duplicate_names_witness :
    (keysOf ((EvalResult.mk llmA [mA, mA2] oneDs [[1/2], [3/4]] 1).reprData.getD 0 [])).Nodup ∧
    (keysOf ((EvalResult.mk llmA [mA, mA2] oneDs [[1/2], [3/4]] 1).reprData.getD 0 [])).toFinset =
      ([mA, mA2].map (fun m => m.name)).toFinset ∧
    (∀ i (hi : i < [mA, mA2].length),
      (∀ j2 (hj2 : j2 < [mA, mA2].length), i < j2 →
        [mA, mA2][j2].name ≠ [mA, mA2][i].name) →
      lookupKey [mA, mA2][i].name
          ((EvalResult.mk llmA [mA, mA2] oneDs [[1/2], [3/4]] 1).reprData.getD 0 []) =
        Option.some ((([[1/2], [3/4]] : List (List Rat)).getD i []).getD 0 0)) :=
  repr_duplicate_names llmA [mA, mA2] oneDs 1 [[1/2], [3/4]] _ rfl 0 (by decide)
